import Mathlib

/-!
Shallow embedding of the `asking` crate's prompt-resolution engine
(`src/question.rs`): the `QuestionBuilder` configuration, the step
functions (`check_attempts`, `write_message`, `write_attempts_feedback`,
`take_input`, `decrease_attempts`, `test_string`, `parse_input`,
`test_proposal`, `give_feedback`) and the retry loop `ask_loop` wrapped
by `ask`.

Modelling choices:
* The reader is a list of raw input lines; an empty list models the
  `read_line` call reporting zero bytes (end of stream).
* The writer is the list of strings passed to `writer.write` so far,
  in order; `flush` is a no-op on this model.
* `eyre::Result` is modelled by `Except String`; stored closures
  (parser, validators, preparser, feedback, error formatter) are plain
  Lean functions held in the structure.
* Ghost fields (`ghost...`) instrument the state with the trace data the
  verified properties talk about (which validators/parsers ran, the
  attempt counts at decrement time and at feedback time); they mirror no
  Rust field and are only appended to, never read, by the step functions.
* The `async` timeout race of `ask` is modelled by a boolean oracle
  saying whether the timer fires first.
-/

namespace Asking

/-- The terminal failures of `ask` (`error.rs`, `enum ProcessingError`). -/
inductive Processing where
  | NoMoreAttempts
  | Io
  | Eof
  | Timeout
deriving DecidableEq, Repr

/-- `question/executor.rs`: how `ask` runs the loop (durations as `Nat`). -/
inductive Executor where
  | None
  | Timeout (duration : Nat)
deriving DecidableEq, Repr

/-- State of one question: the fields of `QuestionBuilder<T, R, W>`
(`question.rs`, lines 46-61), with the reader/writer streams made
explicit as line/write lists, plus ghost instrumentation. -/
structure Question (T : Type) where
  reader : List String
  writer : List String
  message : String × Bool
  help : String × Bool
  default : Option T
  feedback : T → String
  preparser : String → String
  str_tests : List ((String → Except String Unit) × Bool)
  parser : (String → Except String T) × Bool
  tests : List ((T → Except String Unit) × Bool)
  error_formatter : String → String
  executor : Executor
  attempts : Option (Nat × (Nat → String))
  required : String × Bool
  ghostStrTestRuns : Nat := 0
  ghostParserRuns : Nat := 0
  ghostTestRuns : Nat := 0
  ghostFeedbackCalls : Nat := 0
  ghostStrPhase : Nat := 0
  ghostParsePhase : Nat := 0
  ghostDecrements : List Nat := []
  ghostAttemptsFeedbackCalls : List Nat := []

variable {T : Type}

/-- One `self.writer.write(s)` followed by `flush`. -/
def write_str (q : Question T) (s : String) : Question T :=
  { q with writer := q.writer ++ [s] }

/-- `check_attempts` (`question.rs` 467-472): fail with `NoMoreAttempts`
when the budget is present and exactly zero. -/
def check_attempts (q : Question T) : Except Processing Unit :=
  match q.attempts with
  | some (0, _) => .error .NoMoreAttempts
  | _ => .ok ()

/-- `write_message` (`question.rs` 474-481): write the message, then
clear it unless its repeat flag is set. -/
def write_message (q : Question T) : Question T :=
  let q1 := write_str q q.message.1
  if q1.message.2 then q1 else { q1 with message := ("", false) }

/-- `write_attempts_feedback` (`question.rs` 483-491): if a budget is
present, write `feedback(left_attempts)` for the current count.
Ghost: record the count the feedback closure was called with. -/
def write_attempts_feedback (q : Question T) : Question T :=
  match q.attempts with
  | some (n, f) =>
      let q1 := write_str q (f n)
      { q1 with ghostAttemptsFeedbackCalls := q1.ghostAttemptsFeedbackCalls ++ [n] }
  | none => q

/-- `take_input` (`question.rs` 493-499): read one line; zero bytes read
(modelled: no lines left) is the `Eof` failure. -/
def take_input (q : Question T) : Except Processing (String × Question T) :=
  match q.reader with
  | [] => .error .Eof
  | line :: rest => .ok (line, { q with reader := rest })

/-- `decrease_attempts` (`question.rs` 501-506): `*left_attempts -= 1`
(on `Nat`, truncated at zero as `usize` wrapping is the hazard the
verification rules out). Ghost: record the count before the decrement. -/
def decrease_attempts (q : Question T) : Question T :=
  match q.attempts with
  | some (n, f) =>
      { q with attempts := some (n - 1, f),
               ghostDecrements := q.ghostDecrements ++ [n] }
  | none => q

/-- `display_help` (`question.rs` 563-571): write the help text, then
clear it unless its repeat flag is set. -/
def display_help (q : Question T) : Question T :=
  let q1 := write_str q q.help.1
  if q1.help.2 then q1 else { q1 with help := ("", false) }

/-- The `for str_test in &self.str_tests` loop of `test_string`
(`question.rs` 508-523), recursing on the list of string tests.
Ghost: count each executed string test. -/
def run_str_tests (q : Question T) (input : String) :
    List ((String → Except String Unit) × Bool) → Except String Unit × Question T
  | [] => (.ok (), q)
  | t :: rest =>
    let q1 := { q with ghostStrTestRuns := q.ghostStrTestRuns + 1 }
    match t.1 input with
    | .ok _ => run_str_tests q1 input rest
    | .error e =>
      let q2 := if t.2 then write_str q1 (q1.error_formatter e) else q1
      (.error e, display_help q2)

/-- `test_string` (`question.rs` 508-523). Ghost: count the entry into
the string-validation phase. -/
def test_string (q : Question T) (input : String) : Except String Unit × Question T :=
  run_str_tests { q with ghostStrPhase := q.ghostStrPhase + 1 } input q.str_tests

/-- `parse_input` (`question.rs` 525-544): the required-and-empty
warning (help + formatted required message), then the parser; on parser
failure, help and (if enabled) the formatted parser error. Ghost: count
the entry into the parse phase and each parser invocation. -/
def parse_input (q : Question T) (input : String) : Except String T × Question T :=
  let q1 := { q with ghostParsePhase := q.ghostParsePhase + 1 }
  let q2 :=
    if input = "" ∧ q1.required.2 then
      let qh := display_help q1
      write_str qh (qh.error_formatter qh.required.1)
    else q1
  let q3 := { q2 with ghostParserRuns := q2.ghostParserRuns + 1 }
  match q3.parser.1 input with
  | .error e =>
    let qh := display_help q3
    let q4 := if qh.parser.2 then write_str qh (qh.error_formatter e) else qh
    (.error e, q4)
  | .ok v => (.ok v, q3)

/-- The `for test in &self.tests` loop of `test_proposal`
(`question.rs` 546-561). Ghost: count each executed value test. -/
def run_tests (q : Question T) (proposal : T) :
    List ((T → Except String Unit) × Bool) → Except String Unit × Question T
  | [] => (.ok (), q)
  | t :: rest =>
    let q1 := { q with ghostTestRuns := q.ghostTestRuns + 1 }
    match t.1 proposal with
    | .ok _ => run_tests q1 proposal rest
    | .error e =>
      let q2 := if t.2 then write_str q1 (q1.error_formatter e) else q1
      (.error e, display_help q2)

/-- `test_proposal` (`question.rs` 546-561). -/
def test_proposal (q : Question T) (proposal : T) : Except String Unit × Question T :=
  run_tests q proposal q.tests

/-- `give_feedback` (`question.rs` 573-577): write `feedback(value)`.
Ghost: count the invocation of the accepted-value feedback closure. -/
def give_feedback (q : Question T) (value : T) : Question T :=
  let q1 := write_str q (q.feedback value)
  { q1 with ghostFeedbackCalls := q1.ghostFeedbackCalls + 1 }

/-- How one pass through the body of the `loop` in `ask_loop`
(`question.rs` 440-465) ends.  `defaultValue` is the early return at
line 449 (`return Ok(self.default.unwrap())`); `accepted` is the return
at line 463 after feedback; `retry` is any `continue`. -/
inductive IterExit (T : Type) where
  | defaultValue (d : T)
  | accepted (v : T)
  | failure (e : Processing)
  | retry

/-- The part of the loop body of `ask_loop` (`question.rs` 448-463)
that runs on the preparsed input: the empty/default early return, the
string tests, the parser, the value tests and the final feedback. -/
def process_input (q : Question T) (input : String) : IterExit T × Question T :=
  if h : input.isEmpty ∧ q.required.2 = false ∧ q.default.isSome then
    (.defaultValue (q.default.get h.2.2), q)
  else
    match test_string q input with
    | (.error _, q5) => (.retry, q5)
    | (.ok _, q5) =>
      match parse_input q5 input with
      | (.error _, q6) => (.retry, q6)
      | (.ok v, q6) =>
        match test_proposal q6 v with
        | (.error _, q7) => (.retry, q7)
        | (.ok _, q7) => (.accepted v, give_feedback q7 v)

/-- One iteration of the body of the `loop` in `ask_loop`
(`question.rs` 441-464), in source order: check attempts, write message,
write attempts feedback, read a line, decrement attempts, preparse,
then `process_input` on the preparsed text. -/
def ask_iter (q : Question T) : IterExit T × Question T :=
  match check_attempts q with
  | .error e => (.failure e, q)
  | .ok _ =>
    let q1 := write_message q
    let q2 := write_attempts_feedback q1
    match take_input q2 with
    | .error e => (.failure e, q2)
    | .ok (preinput, q3) =>
      let q4 := decrease_attempts q3
      process_input q4 (q4.preparser preinput)

/-- `ask_loop` (`question.rs` 440-465) with explicit fuel; `none` means
the fuel ran out.  Each `retry` consumes one input line, so
`reader.length + 1` units of fuel always suffice (`ask_loop_fuel_isSome`),
making the fuelled function a faithful rendering of the unbounded
`loop`. -/
def ask_loop_fuel : Nat → Question T → Option (Except Processing T × Question T)
  | 0, _ => none
  | fuel + 1, q =>
    match ask_iter q with
    | (.retry, q') => ask_loop_fuel fuel q'
    | (.defaultValue d, q') => some (.ok d, q')
    | (.accepted v, q') => some (.ok v, q')
    | (.failure e, q') => some (.error e, q')

theorem write_str_reader (q : Question T) (s : String) :
    (write_str q s).reader = q.reader := rfl

theorem write_message_reader (q : Question T) :
    (write_message q).reader = q.reader := by
  simp only [write_message, write_str]
  split <;> rfl

theorem write_attempts_feedback_reader (q : Question T) :
    (write_attempts_feedback q).reader = q.reader := by
  simp only [write_attempts_feedback]
  split <;> rfl

theorem decrease_attempts_reader (q : Question T) :
    (decrease_attempts q).reader = q.reader := by
  simp only [decrease_attempts]
  split <;> rfl

theorem display_help_reader (q : Question T) :
    (display_help q).reader = q.reader := by
  simp only [display_help, write_str]
  split <;> rfl

theorem run_str_tests_reader (input : String) :
    ∀ (ts : List ((String → Except String Unit) × Bool)) (q : Question T),
      ((run_str_tests q input ts).2).reader = q.reader := by
  intro ts
  induction ts with
  | nil => intro q; rfl
  | cons t rest ih =>
    intro q
    simp only [run_str_tests]
    split
    · exact ih _
    · rw [display_help_reader]
      split <;> rfl

theorem test_string_reader (q : Question T) (input : String) :
    ((test_string q input).2).reader = q.reader := by
  simp only [test_string]
  rw [run_str_tests_reader]

/-- `display_help` only appends to the writer and updates the help
field. -/
theorem display_help_eq (q : Question T) :
    display_help q =
      { q with writer := q.writer ++ [q.help.1],
               help := if q.help.2 then q.help else ("", false) } := by
  unfold display_help write_str
  by_cases h : q.help.2 <;> simp [h]

/-- `parse_input` only touches the writer, the help field and its two
ghost counters; the phase and parser-run counters each go up by exactly
one. -/
theorem parse_input_frame (q : Question T) (input : String) :
    ∃ w h, (parse_input q input).2 =
      { q with writer := w, help := h,
               ghostParsePhase := q.ghostParsePhase + 1,
               ghostParserRuns := q.ghostParserRuns + 1 } := by
  unfold parse_input
  by_cases hreq : input = "" ∧ q.required.2 = true
  · simp only [if_pos hreq, display_help_eq, write_str]
    split
    · split <;> exact ⟨_, _, rfl⟩
    · exact ⟨_, _, rfl⟩
  · simp only [if_neg hreq]
    split
    · simp only [display_help_eq, write_str]
      split <;> exact ⟨_, _, rfl⟩
    · exact ⟨_, _, rfl⟩

theorem parse_input_reader (q : Question T) (input : String) :
    ((parse_input q input).2).reader = q.reader := by
  obtain ⟨w, h, hfr⟩ := parse_input_frame q input
  rw [hfr]

theorem run_tests_reader (proposal : T) :
    ∀ (ts : List ((T → Except String Unit) × Bool)) (q : Question T),
      ((run_tests q proposal ts).2).reader = q.reader := by
  intro ts
  induction ts with
  | nil => intro q; rfl
  | cons t rest ih =>
    intro q
    simp only [run_tests]
    split
    · exact ih _
    · rw [display_help_reader]
      split <;> rfl

theorem test_proposal_reader (q : Question T) (proposal : T) :
    ((test_proposal q proposal).2).reader = q.reader := by
  simp only [test_proposal]
  rw [run_tests_reader]

theorem give_feedback_reader (q : Question T) (v : T) :
    (give_feedback q v).reader = q.reader := rfl

theorem process_input_reader (q : Question T) (input : String) :
    ((process_input q input).2).reader = q.reader := by
  unfold process_input
  split
  · rfl
  · split
    · rename_i q5 hts
      have h5 : q5 = (test_string q input).2 := by rw [hts]
      rw [h5, test_string_reader]
    · rename_i u q5 hts
      have h5 : q5 = (test_string q input).2 := by rw [hts]
      split
      · rename_i q6 hp
        have h6 : q6 = (parse_input q5 input).2 := by rw [hp]
        rw [h6, parse_input_reader, h5, test_string_reader]
      · rename_i v q6 hp
        have h6 : q6 = (parse_input q5 input).2 := by rw [hp]
        split
        · rename_i q7 htp
          have h7 : q7 = (test_proposal q6 v).2 := by rw [htp]
          rw [h7, test_proposal_reader, h6, parse_input_reader, h5, test_string_reader]
        · rename_i q7 htp
          have h7 : q7 = (test_proposal q6 v).2 := by rw [htp]
          rw [give_feedback_reader, h7, test_proposal_reader, h6, parse_input_reader,
            h5, test_string_reader]

/-- A successful `take_input` pops the head line and changes nothing
else. -/
theorem take_input_ok {q : Question T} {l : String} {q' : Question T}
    (h : take_input q = .ok (l, q')) :
    q.reader = l :: q'.reader ∧ q' = { q with reader := q'.reader } := by
  unfold take_input at h
  split at h
  · exact absurd h (by simp)
  · rename_i line rest hr
    simp only [Except.ok.injEq, Prod.mk.injEq] at h
    obtain ⟨h1, h2⟩ := h
    subst h1
    subst h2
    exact ⟨by rw [hr], rfl⟩

/-- A `continue` in the loop body always happens after `take_input`
consumed one line, so the remaining input strictly shrinks. -/
theorem ask_iter_retry_reader {q q' : Question T}
    (h : ask_iter q = (.retry, q')) : q'.reader.length < q.reader.length := by
  unfold ask_iter at h
  simp only [] at h
  split at h
  · exact absurd (congrArg Prod.fst h) (by simp)
  · split at h
    · exact absurd (congrArg Prod.fst h) (by simp)
    · rename_i preinput q3 hq3
      have hq' : q' =
          (process_input (decrease_attempts q3)
            ((decrease_attempts q3).preparser preinput)).2 := by
        rw [h]
      obtain ⟨hcons, -⟩ := take_input_ok hq3
      have hlen : q3.reader.length < q.reader.length := by
        have hc := congrArg List.length hcons
        rw [write_attempts_feedback_reader, write_message_reader] at hc
        simp at hc
        omega
      calc q'.reader.length = q3.reader.length := by
            rw [hq', process_input_reader, decrease_attempts_reader]
        _ < q.reader.length := hlen

/-- `reader.length + 1` units of fuel always suffice for `ask_loop_fuel`. -/
theorem ask_loop_fuel_isSome :
    ∀ (fuel : Nat) (q : Question T), q.reader.length < fuel →
      (ask_loop_fuel fuel q).isSome := by
  intro fuel
  induction fuel with
  | zero => intro q h; exact absurd h (Nat.not_lt_zero _)
  | succ n ih =>
    intro q h
    simp only [ask_loop_fuel]
    split
    · rename_i q' hiter
      exact ih q' (Nat.lt_of_lt_of_le (ask_iter_retry_reader hiter) (Nat.lt_succ_iff.mp h))
    all_goals rfl

/-- `ask_loop` (`question.rs` 440-465): run the loop body until an exit,
which always happens within `reader.length + 1` iterations. -/
def ask_loop (q : Question T) : Except Processing T × Question T :=
  (ask_loop_fuel (q.reader.length + 1) q).get
    (ask_loop_fuel_isSome _ q (Nat.lt_succ_self _))

/-- `ask` (`question.rs` 431-438): run the loop directly, or race it
against a timer; `timerFires` is the oracle saying whether the timer
wins the race. -/
def ask (q : Question T) (timerFires : Bool) : Except Processing T × Question T :=
  match q.executor with
  | .None => ask_loop q
  | .Timeout _ => if timerFires then (.error .Timeout, q) else ask_loop q

/-! Builder methods (`question.rs`), acting on the same state record. -/

/-- `message` (`question.rs` 128-131). -/
def message (q : Question T) (m : String) : Question T :=
  { q with message := (m, false) }

/-- `repeat_message` (`question.rs` 133-136). -/
def repeat_message (q : Question T) (m : String) : Question T :=
  { q with message := (m, true) }

/-- `help` (`question.rs` 138-141). -/
def help (q : Question T) (h : String) : Question T :=
  { q with help := (h, false) }

/-- `feedback` (`question.rs` 148-154). -/
def feedback (q : Question T) (f : T → String) : Question T :=
  { q with feedback := f }

/-- `default_value` (`question.rs` 343-349). -/
def default_value (q : Question T) (v : Option T) : Question T :=
  { q with default := v }

/-- `required` (`question.rs` 356-359). -/
def required (q : Question T) : Question T :=
  { q with required := (q.required.1, true) }

/-- `required_with_msg` (`question.rs` 362-365). -/
def required_with_msg (q : Question T) (m : String) : Question T :=
  { q with required := (m, true) }

/-- `timeout` (`question.rs` 385-388). -/
def timeout (q : Question T) (duration : Nat) : Question T :=
  { q with executor := .Timeout duration }

/-- `attempts_with_feedback` (`question.rs` 330-336). -/
def attempts_with_feedback (q : Question T) (n : Nat) (f : Nat → String) : Question T :=
  { q with attempts := some (n, f) }

/-- `str_test_with_feedback` (`question.rs` 797-803): push onto
`str_tests` with the display flag set. -/
def str_test_with_feedback (q : Question T) (t : String → Except String Unit) : Question T :=
  { q with str_tests := q.str_tests ++ [(t, true)] }

/-- `test_with_feedback` (`question.rs` 808-814): push onto `tests`
with the display flag set. -/
def test_with_feedback (q : Question T) (t : T → Except String Unit) : Question T :=
  { q with tests := q.tests ++ [(t, true)] }

/-- `str_test_with_msg` (`question.rs` 613-623). -/
def str_test_with_msg (q : Question T) (t : String → Bool) (m : String) : Question T :=
  str_test_with_feedback q (fun s => if t s then .ok () else .error m)

/-- `str_test` (`question.rs` 605-610). -/
def str_test (q : Question T) (t : String → Bool) : Question T :=
  str_test_with_msg q t "The input failed a test before being parsed."

/-- `test_with_msg` (`question.rs` 179-189). -/
def test_with_msg (q : Question T) (t : T → Bool) (m : String) : Question T :=
  test_with_feedback q (fun v => if t v then .ok () else .error m)

/-- `test` (`question.rs` 172-177). -/
def test (q : Question T) (t : T → Bool) : Question T :=
  test_with_msg q t "The value failed a test."

/-! Equation and frame lemmas for the step functions. -/

theorem check_attempts_zero {q : Question T} {f : Nat → String}
    (h : q.attempts = some (0, f)) :
    check_attempts q = .error .NoMoreAttempts := by
  unfold check_attempts
  rw [h]

theorem check_attempts_none {q : Question T} (h : q.attempts = none) :
    check_attempts q = .ok () := by
  unfold check_attempts
  rw [h]

theorem check_attempts_succ {q : Question T} {k : Nat} {f : Nat → String}
    (h : q.attempts = some (k + 1, f)) :
    check_attempts q = .ok () := by
  unfold check_attempts
  rw [h]
  rfl

theorem write_message_eq (q : Question T) :
    write_message q =
      { q with writer := q.writer ++ [q.message.1],
               message := if q.message.2 then q.message else ("", false) } := by
  unfold write_message write_str
  by_cases h : q.message.2 <;> simp [h]

theorem write_attempts_feedback_some {q : Question T} {n : Nat} {f : Nat → String}
    (h : q.attempts = some (n, f)) :
    write_attempts_feedback q =
      { q with writer := q.writer ++ [f n],
               ghostAttemptsFeedbackCalls := q.ghostAttemptsFeedbackCalls ++ [n] } := by
  unfold write_attempts_feedback write_str
  rw [h]

theorem write_attempts_feedback_none {q : Question T} (h : q.attempts = none) :
    write_attempts_feedback q = q := by
  unfold write_attempts_feedback
  rw [h]

theorem decrease_attempts_some {q : Question T} {n : Nat} {f : Nat → String}
    (h : q.attempts = some (n, f)) :
    decrease_attempts q =
      { q with attempts := some (n - 1, f),
               ghostDecrements := q.ghostDecrements ++ [n] } := by
  unfold decrease_attempts
  rw [h]

theorem decrease_attempts_none {q : Question T} (h : q.attempts = none) :
    decrease_attempts q = q := by
  unfold decrease_attempts
  rw [h]

theorem take_input_nil {q : Question T} (h : q.reader = []) :
    take_input q = .error .Eof := by
  unfold take_input
  rw [h]

theorem take_input_cons {q : Question T} {line : String} {rest : List String}
    (h : q.reader = line :: rest) :
    take_input q = .ok (line, { q with reader := rest }) := by
  unfold take_input
  rw [h]

theorem give_feedback_eq (q : Question T) (v : T) :
    give_feedback q v =
      { q with writer := q.writer ++ [q.feedback v],
               ghostFeedbackCalls := q.ghostFeedbackCalls + 1 } := rfl

/-- The string-test loop only touches the writer, the help field and
the string-test run counter. -/
theorem run_str_tests_frame (input : String) :
    ∀ (ts : List ((String → Except String Unit) × Bool)) (q : Question T),
      ∃ w h g, (run_str_tests q input ts).2 =
        { q with writer := w, help := h, ghostStrTestRuns := g } := by
  intro ts
  induction ts with
  | nil =>
    intro q
    exact ⟨q.writer, q.help, q.ghostStrTestRuns, rfl⟩
  | cons t rest ih =>
    intro q
    simp only [run_str_tests]
    split
    · obtain ⟨w, h, g, hfr⟩ := ih { q with ghostStrTestRuns := q.ghostStrTestRuns + 1 }
      exact ⟨w, h, g, by rw [hfr]⟩
    · split <;> exact ⟨_, _, _, display_help_eq _⟩

/-- `test_string` only touches the writer, the help field and its two
ghost counters; the phase counter goes up by exactly one. -/
theorem test_string_frame (q : Question T) (input : String) :
    ∃ w h g, (test_string q input).2 =
      { q with writer := w, help := h,
               ghostStrPhase := q.ghostStrPhase + 1, ghostStrTestRuns := g } := by
  obtain ⟨w, h, g, hfr⟩ :=
    run_str_tests_frame input q.str_tests { q with ghostStrPhase := q.ghostStrPhase + 1 }
  exact ⟨w, h, g, by rw [test_string, hfr]⟩

/-- The value-test loop only touches the writer, the help field and the
value-test run counter. -/
theorem run_tests_frame (proposal : T) :
    ∀ (ts : List ((T → Except String Unit) × Bool)) (q : Question T),
      ∃ w h g, (run_tests q proposal ts).2 =
        { q with writer := w, help := h, ghostTestRuns := g } := by
  intro ts
  induction ts with
  | nil =>
    intro q
    exact ⟨q.writer, q.help, q.ghostTestRuns, rfl⟩
  | cons t rest ih =>
    intro q
    simp only [run_tests]
    split
    · obtain ⟨w, h, g, hfr⟩ := ih { q with ghostTestRuns := q.ghostTestRuns + 1 }
      exact ⟨w, h, g, by rw [hfr]⟩
    · split <;> exact ⟨_, _, _, display_help_eq _⟩

theorem test_proposal_frame (q : Question T) (proposal : T) :
    ∃ w h g, (test_proposal q proposal).2 =
      { q with writer := w, help := h, ghostTestRuns := g } := by
  obtain ⟨w, h, g, hfr⟩ := run_tests_frame proposal q.tests q
  exact ⟨w, h, g, by rw [test_proposal, hfr]⟩

/-- The value `parse_input` returns is exactly what the stored parser
says on this input: the surrounding display logic never changes it. -/
theorem parse_input_result (q : Question T) (input : String) :
    (parse_input q input).1 = q.parser.1 input := by
  unfold parse_input
  by_cases hreq : input = "" ∧ q.required.2 = true
  · simp only [if_pos hreq, display_help_eq, write_str]
    split <;> rename_i heq <;> simp [heq]
  · simp only [if_neg hreq]
    split <;> rename_i heq <;> simp [heq]

/-- Everything after the read (`process_input`) only touches the
writer, the help field and the six ghost counters: in particular it
never changes the reader, the attempts budget or the decrement trace. -/
theorem process_input_frame (q : Question T) (input : String) :
    ∃ w h a b c d e f, (process_input q input).2 =
      { q with writer := w, help := h,
               ghostStrPhase := a, ghostStrTestRuns := b,
               ghostParsePhase := c, ghostParserRuns := d,
               ghostTestRuns := e, ghostFeedbackCalls := f } := by
  unfold process_input
  split
  · exact ⟨_, _, _, _, _, _, _, _, rfl⟩
  · split
    · rename_i q5 hts
      have h5 : q5 = (test_string q input).2 := by rw [hts]
      obtain ⟨w, h, g, hfr⟩ := test_string_frame q input
      rw [h5, hfr]
      exact ⟨_, _, _, _, _, _, _, _, rfl⟩
    · rename_i u q5 hts
      have h5 : q5 = (test_string q input).2 := by rw [hts]
      obtain ⟨w5, hh5, g5, hfr5⟩ := test_string_frame q input
      split
      · rename_i q6 hp
        have h6 : q6 = (parse_input q5 input).2 := by rw [hp]
        obtain ⟨w6, hh6, hfr6⟩ := parse_input_frame q5 input
        rw [h6, hfr6, h5, hfr5]
        exact ⟨_, _, _, _, _, _, _, _, rfl⟩
      · rename_i v q6 hp
        have h6 : q6 = (parse_input q5 input).2 := by rw [hp]
        obtain ⟨w6, hh6, hfr6⟩ := parse_input_frame q5 input
        split
        · rename_i q7 htp
          have h7 : q7 = (test_proposal q6 v).2 := by rw [htp]
          obtain ⟨w7, hh7, e7, hfr7⟩ := test_proposal_frame q6 v
          rw [h7, hfr7, h6, hfr6, h5, hfr5]
          exact ⟨_, _, _, _, _, _, _, _, rfl⟩
        · rename_i q7 htp
          have h7 : q7 = (test_proposal q6 v).2 := by rw [htp]
          obtain ⟨w7, hh7, e7, hfr7⟩ := test_proposal_frame q6 v
          rw [give_feedback_eq, h7, hfr7, h6, hfr6, h5, hfr5]
          exact ⟨_, _, _, _, _, _, _, _, rfl⟩

/-- Unfolding helper: once the fuelled loop is known to produce a
result at the fuel `ask_loop` uses, `ask_loop` equals that result. -/
theorem ask_loop_eq_of_fuel {q : Question T} {r : Except Processing T × Question T}
    (h : ask_loop_fuel (q.reader.length + 1) q = some r) : ask_loop q = r := by
  unfold ask_loop
  simp [h]

/-- `ask_loop` is the value under the `some` of the fuelled loop. -/
theorem ask_loop_fuel_eq_some (q : Question T) :
    ask_loop_fuel (q.reader.length + 1) q = some (ask_loop q) :=
  (Option.some_get (ask_loop_fuel_isSome _ q (Nat.lt_succ_self _))).symm

theorem opt_get_eq {α : Type} {o : Option α} {a : α} (h : o = some a)
    (h2 : o.isSome) : o.get h2 = a := by
  subst h
  rfl

theorem write_message_frame (q : Question T) :
    ∃ w m, write_message q = { q with writer := w, message := m } :=
  ⟨_, _, write_message_eq q⟩

theorem write_attempts_feedback_frame (q : Question T) :
    ∃ w g, write_attempts_feedback q =
      { q with writer := w, ghostAttemptsFeedbackCalls := g } := by
  cases hA : q.attempts with
  | none => exact ⟨q.writer, q.ghostAttemptsFeedbackCalls,
      by rw [write_attempts_feedback_none hA, ← hA]⟩
  | some p =>
    obtain ⟨n, f⟩ := p
    have h2 := write_attempts_feedback_some hA
    rw [hA] at h2
    exact ⟨_, _, h2⟩

theorem decrease_attempts_frame (q : Question T) :
    ∃ a g, decrease_attempts q = { q with attempts := a, ghostDecrements := g } := by
  cases hA : q.attempts with
  | none => exact ⟨none, q.ghostDecrements,
      by rw [decrease_attempts_none hA, ← hA]⟩
  | some p =>
    obtain ⟨n, f⟩ := p
    exact ⟨_, _, decrease_attempts_some hA⟩

/-- The state just after a successful read, as a record update of the
initial state of the iteration. -/
theorem pre_read_frame (q : Question T) (rest : List String) :
    ∃ w m ga a gd,
      decrease_attempts
          { write_attempts_feedback (write_message q) with reader := rest } =
        { q with reader := rest, writer := w, message := m,
                 ghostAttemptsFeedbackCalls := ga, attempts := a,
                 ghostDecrements := gd } := by
  obtain ⟨w1, m1, h1⟩ := write_message_frame q
  obtain ⟨w2, g2, h2⟩ := write_attempts_feedback_frame (write_message q)
  obtain ⟨a3, g3, h3⟩ :=
    decrease_attempts_frame
      { write_attempts_feedback (write_message q) with reader := rest }
  rw [h3, h2, h1]
  exact ⟨_, _, _, _, _, rfl⟩

/-- With a zero budget, the iteration fails at the very first step with
the state untouched. -/
theorem ask_iter_zero {q : Question T} {f : Nat → String}
    (hf : q.attempts = some (0, f)) :
    ask_iter q = (.failure .NoMoreAttempts, q) := by
  unfold ask_iter
  rw [check_attempts_zero hf]

/-- With an exhausted reader (and a passing attempts check), the
iteration fails with `Eof` right after the message and attempts
feedback are written. -/
theorem ask_iter_eof {q : Question T} (hC : check_attempts q = .ok ())
    (hr : q.reader = []) :
    ask_iter q = (.failure .Eof, write_attempts_feedback (write_message q)) := by
  unfold ask_iter
  rw [hC]
  dsimp only
  rw [take_input_nil (by rw [write_attempts_feedback_reader, write_message_reader, hr])]

/-- With a line available (and a passing attempts check), the iteration
is `process_input` on the preparsed line, run from the post-read
state. -/
theorem ask_iter_read {q : Question T} {line : String} {rest : List String}
    (hC : check_attempts q = .ok ()) (hr : q.reader = line :: rest) :
    ask_iter q =
      process_input
        (decrease_attempts
          { write_attempts_feedback (write_message q) with reader := rest })
        ((decrease_attempts
          { write_attempts_feedback (write_message q) with reader := rest }).preparser
          line) := by
  unfold ask_iter
  rw [hC]
  dsimp only
  rw [take_input_cons (q := write_attempts_feedback (write_message q))
    (by rw [write_attempts_feedback_reader, write_message_reader, hr])]

/-- The empty/default early return (`question.rs` 448-450): empty
preparsed input, not required, default present. -/
theorem process_input_default {q : Question T} {input : String} {d : T}
    (hemp : input.isEmpty = true) (hreq : q.required.2 = false)
    (hdef : q.default = some d) :
    process_input q input = (.defaultValue d, q) := by
  unfold process_input
  rw [dif_pos ⟨hemp, hreq, by rw [hdef]; rfl⟩]
  rw [opt_get_eq hdef]

/-- When the early-return guard fails, the iteration enters string
validation (the phase counter goes up by one) and can never produce the
default-value exit. -/
theorem process_input_else {q : Question T} {input : String}
    (h : ¬(input.isEmpty = true ∧ q.required.2 = false ∧ q.default.isSome = true)) :
    (∀ d, (process_input q input).1 ≠ .defaultValue d) ∧
    (process_input q input).2.ghostStrPhase = q.ghostStrPhase + 1 := by
  unfold process_input
  rw [dif_neg h]
  constructor
  · intro d
    split
    · simp
    · split
      · simp
      · split <;> simp
  · split
    · rename_i q5 hts
      have h5 : q5 = (test_string q input).2 := by rw [hts]
      obtain ⟨w, hh, g, hfr⟩ := test_string_frame q input
      rw [h5, hfr]
    · rename_i u q5 hts
      have h5 : q5 = (test_string q input).2 := by rw [hts]
      obtain ⟨w5, hh5, g5, hfr5⟩ := test_string_frame q input
      split
      · rename_i q6 hp
        have h6 : q6 = (parse_input q5 input).2 := by rw [hp]
        obtain ⟨w6, hh6, hfr6⟩ := parse_input_frame q5 input
        rw [h6, hfr6, h5, hfr5]
      · rename_i v q6 hp
        have h6 : q6 = (parse_input q5 input).2 := by rw [hp]
        obtain ⟨w6, hh6, hfr6⟩ := parse_input_frame q5 input
        split
        · rename_i q7 htp
          have h7 : q7 = (test_proposal q6 v).2 := by rw [htp]
          obtain ⟨w7, hh7, e7, hfr7⟩ := test_proposal_frame q6 v
          rw [h7, hfr7, h6, hfr6, h5, hfr5]
        · rename_i q7 htp
          have h7 : q7 = (test_proposal q6 v).2 := by rw [htp]
          obtain ⟨w7, hh7, e7, hfr7⟩ := test_proposal_frame q6 v
          rw [give_feedback_eq, h7, hfr7, h6, hfr6, h5, hfr5]

/-- `process_input_default` specialised to a record-update state, with
the hypotheses phrased on the base state (the updates never touch
`required` or `default`). -/
theorem process_input_default_lit {qb : Question T} {rd : List String}
    {wr : List String} {ms : String × Bool} {ga : List Nat}
    {att : Option (Nat × (Nat → String))} {gd : List Nat} {input : String} {d : T}
    (hemp : input.isEmpty = true) (hreq : qb.required.2 = false)
    (hdef : qb.default = some d) :
    process_input
      { qb with reader := rd, writer := wr, message := ms,
                ghostAttemptsFeedbackCalls := ga, attempts := att,
                ghostDecrements := gd } input
    = (.defaultValue d,
       { qb with reader := rd, writer := wr, message := ms,
                 ghostAttemptsFeedbackCalls := ga, attempts := att,
                 ghostDecrements := gd }) :=
  process_input_default hemp hreq hdef

/-- The read-path iteration, with the post-read state written as a
record update of the initial state, keeping the writer explicit (no
write happens after the read itself). -/
theorem ask_iter_read2 {q : Question T} {line : String} {rest : List String}
    (hC : check_attempts q = .ok ()) (hr : q.reader = line :: rest) :
    ∃ m ga a gd,
      ask_iter q = process_input
        { q with reader := rest,
                 writer := (write_attempts_feedback (write_message q)).writer,
                 message := m, ghostAttemptsFeedbackCalls := ga,
                 attempts := a, ghostDecrements := gd }
        (q.preparser line) := by
  obtain ⟨w, m, ga, a, gd, hq4⟩ := pre_read_frame q rest
  have hw : w = (write_attempts_feedback (write_message q)).writer := by
    have hwr := congrArg Question.writer hq4
    obtain ⟨a2, g2, hda⟩ :=
      decrease_attempts_frame
        { write_attempts_feedback (write_message q) with reader := rest }
    rw [hda] at hwr
    exact hwr.symm
  rw [hw] at hq4
  refine ⟨m, ga, a, gd, ?_⟩
  rw [ask_iter_read hC hr, hq4]

/-- A concrete sample configuration over `Nat` used to witness the
claims on concrete inputs. -/
def mkSample (rd : List String) (att : Option (Nat × (Nat → String)))
    (req : Bool) (dflt : Option Nat) : Question Nat :=
  { reader := rd
  , writer := []
  , message := ("Pick a number", false)
  , help := ("please type a number", false)
  , default := dflt
  , feedback := fun v => toString v
  , preparser := fun s => if s = "\n" then "" else s
  , str_tests := []
  , parser := (fun s => if s = "42" then .ok 42 else .error "bad number", false)
  , tests := []
  , error_formatter := fun s => s ++ "\n"
  , executor := .None
  , attempts := att
  , required := ("this is required", req) }

/-- Claim C1: with `attempts = Some((0, f))`, `ask_loop` returns the
`NoMoreAttempts` failure with the state completely untouched — nothing
is written (no message, no attempts feedback) and no line is read — and
`ask` (with no timeout executor) returns the same. -/
theorem claim_C1 {T : Type} (q : Question T)
    (h : ∃ f, q.attempts = some (0, f)) :
    ask_loop q = (.error .NoMoreAttempts, q) ∧
    (ask_loop q).2.writer = q.writer ∧
    (ask_loop q).2.reader = q.reader ∧
    (q.executor = .None → ∀ b, ask q b = (.error .NoMoreAttempts, q)) := by
  obtain ⟨f, hf⟩ := h
  have hiter : ask_iter q = (.failure .NoMoreAttempts, q) := ask_iter_zero hf
  have hloop : ask_loop q = (.error .NoMoreAttempts, q) := by
    apply ask_loop_eq_of_fuel
    simp only [ask_loop_fuel]
    rw [hiter]
  refine ⟨hloop, by rw [hloop], by rw [hloop], fun hexec b => ?_⟩
  unfold ask
  rw [hexec]
  exact hloop

def sampleC1 : Question Nat := mkSample ["42\n"] (some (0, fun _ => "no attempts")) false none

/-- Witness for C1 at a concrete zero-budget configuration. -/
theorem claim_C1_witness :
    ask_loop sampleC1 = (.error .NoMoreAttempts, sampleC1) ∧
    (ask_loop sampleC1).2.writer = sampleC1.writer ∧
    (ask_loop sampleC1).2.reader = sampleC1.reader ∧
    (sampleC1.executor = .None → ∀ b, ask sampleC1 b = (.error .NoMoreAttempts, sampleC1)) :=
  claim_C1 sampleC1 ⟨fun _ => "no attempts", rfl⟩

/-- Claim C2: with `required = false` and a default present, an empty
preparsed line makes `ask_loop` return the default immediately: no
string test runs, the parser is not invoked, and no value test runs. -/
theorem claim_C2 {T : Type} (q : Question T) (line : String) (rest : List String)
    (d : T)
    (hreq : q.required.2 = false) (hdef : q.default = some d)
    (hr : q.reader = line :: rest) (hemp : q.preparser line = "")
    (hatt : ∀ f, q.attempts ≠ some (0, f)) :
    (ask_loop q).1 = .ok d ∧
    (ask_loop q).2.ghostStrTestRuns = q.ghostStrTestRuns ∧
    (ask_loop q).2.ghostParserRuns = q.ghostParserRuns ∧
    (ask_loop q).2.ghostTestRuns = q.ghostTestRuns := by
  have hC : check_attempts q = .ok () := by
    cases hA : q.attempts with
    | none => exact check_attempts_none hA
    | some p =>
      obtain ⟨n, f⟩ := p
      cases n with
      | zero => exact absurd hA (hatt f)
      | succ k => exact check_attempts_succ hA
  obtain ⟨m, ga, a, gd, hiter⟩ := ask_iter_read2 hC hr
  rw [hemp] at hiter
  rw [process_input_default_lit (show ("" : String).isEmpty = true from rfl)
    hreq hdef] at hiter
  have hloop := ask_loop_eq_of_fuel (by
    simp only [ask_loop_fuel]
    rw [hiter])
  rw [hloop]
  exact ⟨rfl, rfl, rfl, rfl⟩

def sampleC2 : Question Nat := mkSample ["\n"] none false (some 7)

/-- Witness for C2: an empty line (just a newline) with default `7`. -/
theorem claim_C2_witness :
    (ask_loop sampleC2).1 = .ok 7 ∧
    (ask_loop sampleC2).2.ghostStrTestRuns = sampleC2.ghostStrTestRuns ∧
    (ask_loop sampleC2).2.ghostParserRuns = sampleC2.ghostParserRuns ∧
    (ask_loop sampleC2).2.ghostTestRuns = sampleC2.ghostTestRuns :=
  claim_C2 sampleC2 "\n" [] 7 rfl rfl rfl (by decide)
    (fun f h => Option.noConfusion h)

/-- Claim C10 (implicit): on the empty/default short-circuit path the
accepted-value feedback closure is never invoked and nothing is written
after the line is read — the final writer is exactly the writer right
after the attempts feedback (pre-read) — unlike the normal success path
(`give_feedback`), which always appends `feedback(value)`. -/
theorem claim_C10 {T : Type} (q : Question T) (line : String) (rest : List String)
    (d : T)
    (hreq : q.required.2 = false) (hdef : q.default = some d)
    (hr : q.reader = line :: rest) (hemp : q.preparser line = "")
    (hatt : ∀ f, q.attempts ≠ some (0, f)) :
    (ask_loop q).1 = .ok d ∧
    (ask_loop q).2.writer = (write_attempts_feedback (write_message q)).writer ∧
    (ask_loop q).2.ghostFeedbackCalls = q.ghostFeedbackCalls ∧
    (∀ (p : Question T) (v : T), (give_feedback p v).writer = p.writer ++ [p.feedback v]) := by
  have hC : check_attempts q = .ok () := by
    cases hA : q.attempts with
    | none => exact check_attempts_none hA
    | some p =>
      obtain ⟨n, f⟩ := p
      cases n with
      | zero => exact absurd hA (hatt f)
      | succ k => exact check_attempts_succ hA
  obtain ⟨m, ga, a, gd, hiter⟩ := ask_iter_read2 hC hr
  rw [hemp] at hiter
  rw [process_input_default_lit (show ("" : String).isEmpty = true from rfl)
    hreq hdef] at hiter
  have hloop := ask_loop_eq_of_fuel (by
    simp only [ask_loop_fuel]
    rw [hiter])
  rw [hloop]
  exact ⟨rfl, rfl, rfl, fun p v => rfl⟩

/-- Witness for C10 at the same concrete configuration as C2. -/
theorem claim_C10_witness :
    (ask_loop sampleC2).1 = .ok 7 ∧
    (ask_loop sampleC2).2.writer =
      (write_attempts_feedback (write_message sampleC2)).writer ∧
    (ask_loop sampleC2).2.ghostFeedbackCalls = sampleC2.ghostFeedbackCalls ∧
    (∀ (p : Question Nat) (v : Nat),
      (give_feedback p v).writer = p.writer ++ [p.feedback v]) :=
  claim_C10 sampleC2 "\n" [] 7 rfl rfl rfl (by decide)
    (fun f h => Option.noConfusion h)

theorem process_input_attempts (q : Question T) (input : String) :
    (process_input q input).2.attempts = q.attempts := by
  obtain ⟨w, h, a, b, c, d, e, f, hfr⟩ := process_input_frame q input
  rw [hfr]

theorem process_input_ghostDecrements (q : Question T) (input : String) :
    (process_input q input).2.ghostDecrements = q.ghostDecrements := by
  obtain ⟨w, h, a, b, c, d, e, f, hfr⟩ := process_input_frame q input
  rw [hfr]

theorem process_input_ghostAttemptsFeedbackCalls (q : Question T) (input : String) :
    (process_input q input).2.ghostAttemptsFeedbackCalls =
      q.ghostAttemptsFeedbackCalls := by
  obtain ⟨w, h, a, b, c, d, e, f, hfr⟩ := process_input_frame q input
  rw [hfr]

/-- `process_input_else` specialised to a record-update state. -/
theorem process_input_else_lit {qb : Question T} {rd : List String}
    {wr : List String} {ms : String × Bool} {ga : List Nat}
    {att : Option (Nat × (Nat → String))} {gd : List Nat} {input : String}
    (h : ¬(input.isEmpty = true ∧ qb.required.2 = false ∧ qb.default.isSome = true)) :
    (∀ d, (process_input
      { qb with reader := rd, writer := wr, message := ms,
                ghostAttemptsFeedbackCalls := ga, attempts := att,
                ghostDecrements := gd } input).1 ≠ .defaultValue d) ∧
    (process_input
      { qb with reader := rd, writer := wr, message := ms,
                ghostAttemptsFeedbackCalls := ga, attempts := att,
                ghostDecrements := gd } input).2.ghostStrPhase =
      qb.ghostStrPhase + 1 :=
  process_input_else h

/-- With no string tests configured, the parse phase is always entered
on the non-default path (string validation trivially passes). -/
theorem process_input_parse_phase {q : Question T} {input : String}
    (h : ¬(input.isEmpty = true ∧ q.required.2 = false ∧ q.default.isSome = true))
    (hstr : q.str_tests = []) :
    (process_input q input).2.ghostParsePhase = q.ghostParsePhase + 1 := by
  unfold process_input
  rw [dif_neg h]
  have hts : test_string q input =
      (.ok (), { q with ghostStrPhase := q.ghostStrPhase + 1 }) := by
    unfold test_string
    rw [show q.str_tests = [] from hstr]
    rfl
  rw [hts]
  dsimp only []
  obtain ⟨w6, hh6, hfr6⟩ :=
    parse_input_frame { q with ghostStrPhase := q.ghostStrPhase + 1 } input
  split
  · rename_i q6 hp
    have h6 : q6 =
        (parse_input { q with ghostStrPhase := q.ghostStrPhase + 1 } input).2 := by
      rw [hp]
    rw [h6, hfr6]
  · rename_i v q6 hp
    have h6 : q6 =
        (parse_input { q with ghostStrPhase := q.ghostStrPhase + 1 } input).2 := by
      rw [hp]
    split
    · rename_i q7 htp
      have h7 : q7 = (test_proposal q6 v).2 := by rw [htp]
      obtain ⟨w7, hh7, e7, hfr7⟩ := test_proposal_frame q6 v
      rw [h7, hfr7, h6, hfr6]
    · rename_i q7 htp
      have h7 : q7 = (test_proposal q6 v).2 := by rw [htp]
      obtain ⟨w7, hh7, e7, hfr7⟩ := test_proposal_frame q6 v
      rw [give_feedback_eq, h7, hfr7, h6, hfr6]

/-- `process_input_parse_phase` specialised to a record-update state. -/
theorem process_input_parse_phase_lit {qb : Question T} {rd : List String}
    {wr : List String} {ms : String × Bool} {ga : List Nat}
    {att : Option (Nat × (Nat → String))} {gd : List Nat} {input : String}
    (h : ¬(input.isEmpty = true ∧ qb.required.2 = false ∧ qb.default.isSome = true))
    (hstr : qb.str_tests = []) :
    (process_input
      { qb with reader := rd, writer := wr, message := ms,
                ghostAttemptsFeedbackCalls := ga, attempts := att,
                ghostDecrements := gd } input).2.ghostParsePhase =
      qb.ghostParsePhase + 1 :=
  process_input_parse_phase h hstr

/-- The read-path iteration under a positive budget `k + 1`, with the
post-read state fully explicit: the message and the attempts feedback
for the *current* count `k + 1` were written, the count was decremented
to `k`, and the decrement trace records `k + 1`. -/
theorem ask_iter_read_att {q : Question T} {line : String} {rest : List String}
    {k : Nat} {f : Nat → String}
    (hatt : q.attempts = some (k + 1, f)) (hr : q.reader = line :: rest) :
    ∃ m,
      ask_iter q = process_input
        { q with reader := rest,
                 writer := q.writer ++ [q.message.1] ++ [f (k + 1)],
                 message := m,
                 ghostAttemptsFeedbackCalls :=
                   q.ghostAttemptsFeedbackCalls ++ [k + 1],
                 attempts := some (k, f),
                 ghostDecrements := q.ghostDecrements ++ [k + 1] }
        (q.preparser line) := by
  have hC := check_attempts_succ hatt
  have h1 := write_message_eq q
  have hA1 : (write_message q).attempts = some (k + 1, f) := by
    rw [h1]
    exact hatt
  have h2 := write_attempts_feedback_some hA1
  have hX : ({ write_attempts_feedback (write_message q) with reader := rest } :
      Question T).attempts = some (k + 1, f) := by
    rw [h2, h1]
    exact hatt
  have h3 := decrease_attempts_some hX
  refine ⟨if q.message.2 then q.message else ("", false), ?_⟩
  rw [ask_iter_read hC hr, h3, h2, h1]
  rfl

/-- The read-path iteration with no budget: nothing is decremented and
no attempts feedback is recorded. -/
theorem ask_iter_read_none {q : Question T} {line : String} {rest : List String}
    (hA : q.attempts = none) (hr : q.reader = line :: rest) :
    ∃ m,
      ask_iter q = process_input
        { q with reader := rest, writer := q.writer ++ [q.message.1], message := m }
        (q.preparser line) := by
  have hC := check_attempts_none hA
  have h1 := write_message_eq q
  have hA1 : (write_message q).attempts = none := by
    rw [h1]
    exact hA
  have h2 := write_attempts_feedback_none hA1
  have hX : ({ write_attempts_feedback (write_message q) with reader := rest } :
      Question T).attempts = none := by
    rw [h2, h1]
    exact hA
  have h3 := decrease_attempts_none hX
  refine ⟨if q.message.2 then q.message else ("", false), ?_⟩
  rw [ask_iter_read hC hr, h3, h2, h1]

/-- Claim C3: for every configuration with `required = true` (any
budget, including `None`, excluding only the zero budget under which no
line is ever read), an empty preparsed line never takes the default
early return: the iteration enters string validation (and, when no
string tests are configured, the parse phase), and whenever a budget
`k + 1` is present the attempts count is decremented to `k` for that
line, recording the pre-decrement count. -/
theorem claim_C3 {T : Type} (q : Question T) (line : String) (rest : List String)
    (hreq : q.required.2 = true)
    (hr : q.reader = line :: rest) (hemp : q.preparser line = "")
    (hatt : ∀ f, q.attempts ≠ some (0, f)) :
    (∀ d, (ask_iter q).1 ≠ .defaultValue d) ∧
    (ask_iter q).2.ghostStrPhase = q.ghostStrPhase + 1 ∧
    (∀ k f, q.attempts = some (k + 1, f) →
      (ask_iter q).2.attempts = some (k, f) ∧
      (ask_iter q).2.ghostDecrements = q.ghostDecrements ++ [k + 1]) ∧
    (q.str_tests = [] →
      (ask_iter q).2.ghostParsePhase = q.ghostParsePhase + 1) := by
  have hcond : ¬(("" : String).isEmpty = true ∧ q.required.2 = false ∧
      q.default.isSome = true) := by
    rw [hreq]
    simp
  cases hA : q.attempts with
  | none =>
    obtain ⟨m, hiter⟩ := ask_iter_read_none hA hr
    rw [hemp] at hiter
    rw [hiter]
    refine ⟨(process_input_else_lit hcond).1, (process_input_else_lit hcond).2,
      fun k f hA2 => ?_, fun hstr => process_input_parse_phase_lit hcond hstr⟩
    exact absurd hA2 (by simp)
  | some p =>
    obtain ⟨n, f⟩ := p
    cases n with
    | zero => exact absurd hA (hatt f)
    | succ k =>
      obtain ⟨m, hiter⟩ := ask_iter_read_att hA hr
      rw [hemp] at hiter
      rw [hiter]
      refine ⟨(process_input_else_lit hcond).1, (process_input_else_lit hcond).2,
        fun k' f' hA2 => ?_, fun hstr => process_input_parse_phase_lit hcond hstr⟩
      simp only [Option.some.injEq, Prod.mk.injEq] at hA2
      obtain ⟨hk, hf⟩ := hA2
      have hkk : k' = k := by omega
      subst hkk
      subst hf
      constructor
      · rw [process_input_attempts]
      · rw [process_input_ghostDecrements]

def sampleC3 : Question Nat :=
  mkSample ["\n"] (some (2, fun _ => "tries left")) true (some 7)

/-- Witness for C3: empty line, `required = true`, two attempts left,
default set. -/
theorem claim_C3_witness :
    (∀ d, (ask_iter sampleC3).1 ≠ .defaultValue d) ∧
    (ask_iter sampleC3).2.ghostStrPhase = sampleC3.ghostStrPhase + 1 ∧
    (∀ k f, sampleC3.attempts = some (k + 1, f) →
      (ask_iter sampleC3).2.attempts = some (k, f) ∧
      (ask_iter sampleC3).2.ghostDecrements =
        sampleC3.ghostDecrements ++ [k + 1]) ∧
    (sampleC3.str_tests = [] →
      (ask_iter sampleC3).2.ghostParsePhase = sampleC3.ghostParsePhase + 1) :=
  claim_C3 sampleC3 "\n" [] rfl rfl (by decide)
    (by intro f h; simp [sampleC3, mkSample] at h)

/-- Claim C4: on empty input with `required = true`, `parse_input`
first writes the help text and the formatted required-message, then
still invokes the parser on the empty text, and the returned result is
exactly the parser's result (the required check alone neither restarts
the loop nor changes the parse outcome). -/
theorem claim_C4 {T : Type} (q : Question T) (hreq : q.required.2 = true) :
    (parse_input q "").1 = q.parser.1 "" ∧
    (∃ tail, (parse_input q "").2.writer =
      q.writer ++ [q.help.1, q.error_formatter q.required.1] ++ tail) ∧
    (parse_input q "").2.ghostParserRuns = q.ghostParserRuns + 1 := by
  refine ⟨parse_input_result q "", ?_, ?_⟩
  · unfold parse_input
    dsimp only []
    rw [if_pos (show ("" : String) = "" ∧ q.required.2 = true from ⟨rfl, hreq⟩)]
    simp only [display_help_eq, write_str]
    cases hp : q.parser.1 "" with
    | ok v =>
      refine ⟨[], ?_⟩
      simp [hp]
    | error e =>
      by_cases hb : q.parser.2 = true
      · refine ⟨[(if q.help.2 then q.help else ("", false)).1,
          q.error_formatter e], ?_⟩
        simp [hp, hb]
      · refine ⟨[(if q.help.2 then q.help else ("", false)).1], ?_⟩
        simp [hp, hb]
  · obtain ⟨w, h, hfr⟩ := parse_input_frame q ""
    rw [hfr]

def sampleC4 : Question Nat := mkSample [] none true none

/-- Witness for C4 at a concrete required configuration. -/
theorem claim_C4_witness :
    (parse_input sampleC4 "").1 = sampleC4.parser.1 "" ∧
    (∃ tail, (parse_input sampleC4 "").2.writer =
      sampleC4.writer ++
        [sampleC4.help.1, sampleC4.error_formatter sampleC4.required.1] ++ tail) ∧
    (parse_input sampleC4 "").2.ghostParserRuns = sampleC4.ghostParserRuns + 1 :=
  claim_C4 sampleC4 rfl

/-- The remaining attempt count of a state (`None` = unlimited). -/
def attemptsCount (q : Question T) : Option Nat :=
  q.attempts.map Prod.fst

/-- Order on optional counts: a present count may only shrink, an
absent budget stays absent. -/
def countLE : Option Nat → Option Nat → Prop
  | some a, some b => a ≤ b
  | none, none => True
  | _, _ => False

theorem countLE_refl (o : Option Nat) : countLE o o := by
  cases o <;> simp [countLE]

theorem countLE_trans {a b c : Option Nat}
    (h1 : countLE a b) (h2 : countLE b c) : countLE a c := by
  cases a <;> cases b <;> cases c <;> simp_all [countLE]
  omega

/-- One iteration only ever appends positive counts to the decrement
trace, and never increases the remaining budget. -/
theorem ask_iter_budget (q : Question T) :
    (∀ n ∈ (ask_iter q).2.ghostDecrements, n ∈ q.ghostDecrements ∨ 1 ≤ n) ∧
    countLE (attemptsCount (ask_iter q).2) (attemptsCount q) := by
  cases hA : q.attempts with
  | some p =>
    obtain ⟨n, f⟩ := p
    cases n with
    | zero =>
      rw [ask_iter_zero hA]
      exact ⟨fun n hn => Or.inl hn, countLE_refl _⟩
    | succ k =>
      cases hr : q.reader with
      | nil =>
        rw [ask_iter_eof (check_attempts_succ hA) hr]
        obtain ⟨w1, m1, h1⟩ := write_message_frame q
        obtain ⟨w2, g2, h2⟩ := write_attempts_feedback_frame (write_message q)
        rw [h2, h1]
        exact ⟨fun n hn => Or.inl hn, countLE_refl (attemptsCount q)⟩
      | cons line rest =>
        obtain ⟨m, hiter⟩ := ask_iter_read_att hA hr
        rw [hiter]
        constructor
        · intro n hn
          rw [process_input_ghostDecrements] at hn
          have hn2 : n ∈ q.ghostDecrements ++ [k + 1] := hn
          rcases List.mem_append.mp hn2 with h | h
          · exact Or.inl h
          · right
            have : n = k + 1 := by simpa using h
            omega
        · simp only [attemptsCount]
          rw [process_input_attempts, hA]
          exact (Nat.le_succ k : countLE (some k) (some (k + 1)))
  | none =>
    cases hr : q.reader with
    | nil =>
      rw [ask_iter_eof (check_attempts_none hA) hr]
      obtain ⟨w1, m1, h1⟩ := write_message_frame q
      obtain ⟨w2, g2, h2⟩ := write_attempts_feedback_frame (write_message q)
      rw [h2, h1]
      exact ⟨fun n hn => Or.inl hn, countLE_refl (attemptsCount q)⟩
    | cons line rest =>
      obtain ⟨m, hiter⟩ := ask_iter_read_none hA hr
      rw [hiter]
      constructor
      · intro n hn
        rw [process_input_ghostDecrements] at hn
        exact Or.inl hn
      · simp only [attemptsCount]
        rw [process_input_attempts, hA]
        trivial

/-- The loop-wide budget invariant, by induction on the fuel. -/
theorem ask_loop_fuel_budget :
    ∀ (fuel : Nat) (q : Question T) (r : Except Processing T) (q' : Question T),
      ask_loop_fuel fuel q = some (r, q') →
      (∀ n ∈ q'.ghostDecrements, n ∈ q.ghostDecrements ∨ 1 ≤ n) ∧
      countLE (attemptsCount q') (attemptsCount q) := by
  intro fuel
  induction fuel with
  | zero =>
    intro q r q' h
    exact absurd h (by simp [ask_loop_fuel])
  | succ n ih =>
    intro q r q' h
    simp only [ask_loop_fuel] at h
    have hstep := ask_iter_budget q
    split at h
    · rename_i q2 hiter
      rw [hiter] at hstep
      have hq := ih _ _ _ h
      constructor
      · intro x hx
        rcases hq.1 x hx with h1 | h1
        · exact hstep.1 x h1
        · exact Or.inr h1
      · exact countLE_trans hq.2 hstep.2
    · rename_i d q2 hiter
      rw [hiter] at hstep
      simp only [Option.some.injEq, Prod.mk.injEq] at h
      obtain ⟨-, h2⟩ := h
      subst h2
      exact hstep
    · rename_i v q2 hiter
      rw [hiter] at hstep
      simp only [Option.some.injEq, Prod.mk.injEq] at h
      obtain ⟨-, h2⟩ := h
      subst h2
      exact hstep
    · rename_i e q2 hiter
      rw [hiter] at hstep
      simp only [Option.some.injEq, Prod.mk.injEq] at h
      obtain ⟨-, h2⟩ := h
      subst h2
      exact hstep

/-- Claim C5: over a whole run of `ask_loop` starting with an empty
decrement trace, every recorded pre-decrement count is at least one
(the `usize` subtraction never wraps), and the remaining budget never
increases (and never changes between present and absent). -/
theorem claim_C5 {T : Type} (q : Question T) (h0 : q.ghostDecrements = []) :
    (∀ n ∈ (ask_loop q).2.ghostDecrements, 1 ≤ n) ∧
    countLE (attemptsCount (ask_loop q).2) (attemptsCount q) := by
  have hb := ask_loop_fuel_budget (q.reader.length + 1) q (ask_loop q).1 (ask_loop q).2
    (by rw [ask_loop_fuel_eq_some])
  refine ⟨fun n hn => ?_, hb.2⟩
  rcases hb.1 n hn with h | h
  · rw [h0] at h
    exact absurd h (List.not_mem_nil n)
  · exact h

def sampleC5 : Question Nat :=
  mkSample ["a", "b", "c"] (some (3, fun n => toString n)) false none

/-- Witness for C5 on a three-line run that exhausts a budget of 3. -/
theorem claim_C5_witness :
    (∀ n ∈ (ask_loop sampleC5).2.ghostDecrements, 1 ≤ n) ∧
    countLE (attemptsCount (ask_loop sampleC5).2) (attemptsCount sampleC5) :=
  claim_C5 sampleC5 rfl

/-! Writer-extension lemmas: every step only appends to the writer. -/

theorem run_str_tests_writer_ext (input : String) :
    ∀ (ts : List ((String → Except String Unit) × Bool)) (q : Question T),
      ∃ t, ((run_str_tests q input ts).2).writer = q.writer ++ t := by
  intro ts
  induction ts with
  | nil =>
    intro q
    exact ⟨[], (List.append_nil _).symm⟩
  | cons tt rest ih =>
    intro q
    simp only [run_str_tests]
    split
    · obtain ⟨tl, htl⟩ := ih { q with ghostStrTestRuns := q.ghostStrTestRuns + 1 }
      exact ⟨tl, htl⟩
    · rename_i e heq
      split
      · rw [display_help_eq]
        refine ⟨[({ q with ghostStrTestRuns := q.ghostStrTestRuns + 1 }).error_formatter e,
          q.help.1], ?_⟩
        simp [write_str]
      · rw [display_help_eq]
        exact ⟨[q.help.1], by simp⟩

theorem test_string_writer_ext (q : Question T) (input : String) :
    ∃ t, ((test_string q input).2).writer = q.writer ++ t := by
  obtain ⟨t, ht⟩ :=
    run_str_tests_writer_ext input q.str_tests
      { q with ghostStrPhase := q.ghostStrPhase + 1 }
  exact ⟨t, ht⟩

theorem run_tests_writer_ext (proposal : T) :
    ∀ (ts : List ((T → Except String Unit) × Bool)) (q : Question T),
      ∃ t, ((run_tests q proposal ts).2).writer = q.writer ++ t := by
  intro ts
  induction ts with
  | nil =>
    intro q
    exact ⟨[], (List.append_nil _).symm⟩
  | cons tt rest ih =>
    intro q
    simp only [run_tests]
    split
    · obtain ⟨tl, htl⟩ := ih { q with ghostTestRuns := q.ghostTestRuns + 1 }
      exact ⟨tl, htl⟩
    · rename_i e heq
      split
      · rw [display_help_eq]
        refine ⟨[({ q with ghostTestRuns := q.ghostTestRuns + 1 }).error_formatter e,
          q.help.1], ?_⟩
        simp [write_str]
      · rw [display_help_eq]
        exact ⟨[q.help.1], by simp⟩

theorem test_proposal_writer_ext (q : Question T) (proposal : T) :
    ∃ t, ((test_proposal q proposal).2).writer = q.writer ++ t :=
  run_tests_writer_ext proposal q.tests q

theorem parse_input_writer_ext (q : Question T) (input : String) :
    ∃ t, ((parse_input q input).2).writer = q.writer ++ t := by
  unfold parse_input
  dsimp only []
  by_cases hc : input = "" ∧ q.required.2 = true
  · rw [if_pos hc]
    simp only [display_help_eq, write_str]
    cases hp : q.parser.1 input with
    | ok v =>
      refine ⟨[q.help.1, q.error_formatter q.required.1], ?_⟩
      simp [hp]
    | error e =>
      by_cases hb : q.parser.2 = true
      · refine ⟨[q.help.1, q.error_formatter q.required.1,
          (if q.help.2 then q.help else ("", false)).1, q.error_formatter e], ?_⟩
        simp [hp, hb]
      · refine ⟨[q.help.1, q.error_formatter q.required.1,
          (if q.help.2 then q.help else ("", false)).1], ?_⟩
        simp [hp, hb]
  · rw [if_neg hc]
    simp only [display_help_eq, write_str]
    cases hp : q.parser.1 input with
    | ok v =>
      refine ⟨[], ?_⟩
      simp [hp]
    | error e =>
      by_cases hb : q.parser.2 = true
      · refine ⟨[q.help.1, q.error_formatter e], ?_⟩
        simp [hp, hb]
      · refine ⟨[q.help.1], ?_⟩
        simp [hp, hb]

theorem process_input_writer_ext (q : Question T) (input : String) :
    ∃ t, ((process_input q input).2).writer = q.writer ++ t := by
  unfold process_input
  split
  · exact ⟨[], (List.append_nil _).symm⟩
  · split
    · rename_i q5 hts
      have h5 : q5 = (test_string q input).2 := by rw [hts]
      obtain ⟨t5, ht5⟩ := test_string_writer_ext q input
      exact ⟨t5, by rw [h5]; exact ht5⟩
    · rename_i u q5 hts
      have h5 : q5 = (test_string q input).2 := by rw [hts]
      obtain ⟨t5, ht5⟩ := test_string_writer_ext q input
      split
      · rename_i q6 hp
        have h6 : q6 = (parse_input q5 input).2 := by rw [hp]
        obtain ⟨t6, ht6⟩ := parse_input_writer_ext q5 input
        refine ⟨t5 ++ t6, ?_⟩
        rw [h6, ht6, h5, ht5, List.append_assoc]
      · rename_i v q6 hp
        have h6 : q6 = (parse_input q5 input).2 := by rw [hp]
        obtain ⟨t6, ht6⟩ := parse_input_writer_ext q5 input
        split
        · rename_i q7 htp
          have h7 : q7 = (test_proposal q6 v).2 := by rw [htp]
          obtain ⟨t7, ht7⟩ := test_proposal_writer_ext q6 v
          refine ⟨t5 ++ (t6 ++ t7), ?_⟩
          rw [h7, ht7, h6, ht6, h5, ht5]
          simp [List.append_assoc]
        · rename_i q7 htp
          have h7 : q7 = (test_proposal q6 v).2 := by rw [htp]
          obtain ⟨t7, ht7⟩ := test_proposal_writer_ext q6 v
          refine ⟨t5 ++ (t6 ++ (t7 ++ [(test_proposal q6 v).2.feedback v])), ?_⟩
          rw [give_feedback_eq, h7, ht7, h6, ht6, h5, ht5]
          simp [List.append_assoc]

def sampleC6 : Question Nat :=
  mkSample ["a", "b", "c"] (some (3, fun n => toString n)) false none

/-- Claim C6: with a budget of `k + 1` at the top of an iteration, the
attempts feedback closure is applied to the current, not-yet-decremented
count `k + 1` (recorded in the ghost trace, and written right after the
message when a line is available); concretely, with a budget of 3 and
three unparsable lines, the loop records feedback counts `3, 2, 1` and
ends with `NoMoreAttempts`. -/
theorem claim_C6 {T : Type} (q : Question T) (k : Nat) (f : Nat → String)
    (hatt : q.attempts = some (k + 1, f)) :
    ((ask_iter q).2.ghostAttemptsFeedbackCalls =
        q.ghostAttemptsFeedbackCalls ++ [k + 1] ∧
      (∀ line rest, q.reader = line :: rest →
        ∃ tail, (ask_iter q).2.writer =
          q.writer ++ [q.message.1, f (k + 1)] ++ tail)) ∧
    ((ask_loop sampleC6).1 = .error .NoMoreAttempts ∧
      (ask_loop sampleC6).2.ghostAttemptsFeedbackCalls = [3, 2, 1]) := by
  refine ⟨⟨?_, ?_⟩, rfl, rfl⟩
  · cases hr : q.reader with
    | nil =>
      rw [ask_iter_eof (check_attempts_succ hatt) hr]
      have h1 := write_message_eq q
      have hA1 : (write_message q).attempts = some (k + 1, f) := by
        rw [h1]
        exact hatt
      have h2 := write_attempts_feedback_some hA1
      rw [h2, h1]
    | cons line rest =>
      obtain ⟨m, hiter⟩ := ask_iter_read_att hatt hr
      rw [hiter, process_input_ghostAttemptsFeedbackCalls]
  · intro line rest hr
    obtain ⟨m, hiter⟩ := ask_iter_read_att hatt hr
    rw [hiter]
    obtain ⟨t, ht⟩ := process_input_writer_ext
      { q with reader := rest,
               writer := q.writer ++ [q.message.1] ++ [f (k + 1)],
               message := m,
               ghostAttemptsFeedbackCalls :=
                 q.ghostAttemptsFeedbackCalls ++ [k + 1],
               attempts := some (k, f),
               ghostDecrements := q.ghostDecrements ++ [k + 1] }
      (q.preparser line)
    refine ⟨t, ?_⟩
    rw [ht]
    simp [List.append_assoc]

/-- Witness for C6 at the concrete budget-3 configuration. -/
theorem claim_C6_witness :
    (((ask_iter sampleC6).2.ghostAttemptsFeedbackCalls =
        sampleC6.ghostAttemptsFeedbackCalls ++ [3] ∧
      (∀ line rest, sampleC6.reader = line :: rest →
        ∃ tail, (ask_iter sampleC6).2.writer =
          sampleC6.writer ++
            [sampleC6.message.1, (fun n => toString n) 3] ++ tail)) ∧
    ((ask_loop sampleC6).1 = .error .NoMoreAttempts ∧
      (ask_loop sampleC6).2.ghostAttemptsFeedbackCalls = [3, 2, 1])) :=
  claim_C6 sampleC6 2 (fun n => toString n) rfl

/-- Claim C7: `take_input` fails with `Eof` exactly when the input
lines are exhausted (a read of zero bytes); a line — even one that is
just a newline — is always returned as data; and an `Eof` at read time
aborts the whole `ask_loop` with the `Eof` failure rather than
retrying. -/
theorem claim_C7 {T : Type} (q : Question T) :
    (take_input q = .error .Eof ↔ q.reader = []) ∧
    (∀ line rest, q.reader = line :: rest →
      take_input q = .ok (line, { q with reader := rest })) ∧
    (q.reader = [] → (∀ f, q.attempts ≠ some (0, f)) →
      (ask_loop q).1 = .error .Eof) := by
  refine ⟨⟨?_, take_input_nil⟩, fun line rest hr => take_input_cons hr,
    fun hr hatt => ?_⟩
  · intro h
    unfold take_input at h
    split at h
    · rename_i heq
      exact heq
    · exact absurd h (by simp)
  · have hC : check_attempts q = .ok () := by
      cases hA : q.attempts with
      | none => exact check_attempts_none hA
      | some p =>
        obtain ⟨n, f⟩ := p
        cases n with
        | zero => exact absurd hA (hatt f)
        | succ k => exact check_attempts_succ hA
    have hiter := ask_iter_eof hC hr
    have hloop := ask_loop_eq_of_fuel (by
      simp only [ask_loop_fuel]
      rw [hiter])
    rw [hloop]

def sampleC7 : Question Nat := mkSample [] none false none

/-- Witness for C7 on an exhausted input stream. -/
theorem claim_C7_witness : (ask_loop sampleC7).1 = .error .Eof :=
  (claim_C7 sampleC7).2.2 rfl (fun _ h => Option.noConfusion h)

theorem check_attempts_error {q : Question T} {e : Processing}
    (h : check_attempts q = .error e) : e = .NoMoreAttempts := by
  unfold check_attempts at h
  split at h
  · exact (Except.error.inj h).symm
  · exact absurd h (by simp)

theorem take_input_error {q : Question T} {e : Processing}
    (h : take_input q = .error e) : e = .Eof := by
  unfold take_input at h
  split at h
  · exact (Except.error.inj h).symm
  · exact absurd h (by simp)

theorem process_input_ne_failure (q : Question T) (input : String)
    (e : Processing) : (process_input q input).1 ≠ .failure e := by
  unfold process_input
  split
  · simp
  · split
    · simp
    · split
      · simp
      · split <;> simp

/-- Any failure of one iteration is `NoMoreAttempts` or `Eof`. -/
theorem ask_iter_failure {q q' : Question T} {e : Processing}
    (h : ask_iter q = (.failure e, q')) :
    e = .NoMoreAttempts ∨ e = .Eof := by
  unfold ask_iter at h
  simp only [] at h
  split at h
  · rename_i e0 hc
    simp only [Prod.mk.injEq] at h
    obtain ⟨h1, -⟩ := h
    left
    rw [← IterExit.failure.inj h1]
    exact check_attempts_error hc
  · split at h
    · rename_i e0 ht
      simp only [Prod.mk.injEq] at h
      obtain ⟨h1, -⟩ := h
      right
      rw [← IterExit.failure.inj h1]
      exact take_input_error ht
    · have hfst := congrArg Prod.fst h
      exact absurd hfst (process_input_ne_failure _ _ _)

/-- The loop itself never produces the `Timeout` failure. -/
theorem ask_loop_fuel_ne_timeout :
    ∀ (fuel : Nat) (q : Question T) (r : Except Processing T) (q' : Question T),
      ask_loop_fuel fuel q = some (r, q') → r ≠ .error .Timeout := by
  intro fuel
  induction fuel with
  | zero =>
    intro q r q' h
    exact absurd h (by simp [ask_loop_fuel])
  | succ n ih =>
    intro q r q' h
    simp only [ask_loop_fuel] at h
    split at h
    · exact ih _ _ _ h
    · rename_i d q2 hiter
      simp only [Option.some.injEq, Prod.mk.injEq] at h
      obtain ⟨h1, -⟩ := h
      rw [← h1]
      simp
    · rename_i v q2 hiter
      simp only [Option.some.injEq, Prod.mk.injEq] at h
      obtain ⟨h1, -⟩ := h
      rw [← h1]
      simp
    · rename_i e q2 hiter
      simp only [Option.some.injEq, Prod.mk.injEq] at h
      obtain ⟨h1, -⟩ := h
      rw [← h1]
      intro hc
      rcases ask_iter_failure hiter with h2 | h2 <;>
        simp [h2] at hc

theorem ask_loop_ne_timeout (q : Question T) :
    (ask_loop q).1 ≠ .error .Timeout :=
  ask_loop_fuel_ne_timeout (q.reader.length + 1) q (ask_loop q).1 (ask_loop q).2
    (by rw [ask_loop_fuel_eq_some])

/-- Claim C8: with `Executor::None`, `ask` is exactly the retry loop
and can never produce `Timeout`; with `Executor::Timeout(d)`, `ask`
produces either the loop's result or the `Timeout` failure (depending
on which side of the race finishes first). -/
theorem claim_C8 {T : Type} (q : Question T) (b : Bool) :
    (q.executor = .None →
      ask q b = ask_loop q ∧ (ask q b).1 ≠ .error .Timeout) ∧
    (∀ dur, q.executor = .Timeout dur →
      ask q b = ask_loop q ∨ (ask q b).1 = .error .Timeout) := by
  constructor
  · intro hex
    unfold ask
    rw [hex]
    exact ⟨rfl, ask_loop_ne_timeout q⟩
  · intro dur hex
    unfold ask
    rw [hex]
    cases b with
    | true => exact Or.inr rfl
    | false => exact Or.inl rfl

/-- Witness for C8 at a concrete no-timeout configuration. -/
theorem claim_C8_witness :
    ask sampleC7 true = ask_loop sampleC7 ∧
    (ask sampleC7 true).1 ≠ .error .Timeout :=
  (claim_C8 sampleC7 true).1 rfl

/-- Claim C9: every scalar builder setter (message, help, default
value, timeout, required message) overwrites on a second call (last
call wins) and leaves both validator lists untouched, while each call
of the `test`/`str_test` family appends exactly one entry to the
corresponding validator list (and `..._with_feedback` changes nothing
else in the state). -/
theorem claim_C9 {T : Type} (q : Question T) (m1 m2 h1 h2 r1 r2 ms : String)
    (v1 v2 : Option T) (d1 d2 : Nat)
    (st : String → Except String Unit) (t : T → Except String Unit)
    (sb : String → Bool) (tb : T → Bool) :
    (message (message q m1) m2 = message q m2) ∧
    (help (help q h1) h2 = help q h2) ∧
    (default_value (default_value q v1) v2 = default_value q v2) ∧
    (timeout (timeout q d1) d2 = timeout q d2) ∧
    (required_with_msg (required_with_msg q r1) r2 = required_with_msg q r2) ∧
    (str_test_with_feedback q st =
      { q with str_tests := q.str_tests ++ [(st, true)] }) ∧
    (test_with_feedback q t = { q with tests := q.tests ++ [(t, true)] }) ∧
    ((str_test_with_msg q sb ms).str_tests.length = q.str_tests.length + 1) ∧
    ((str_test q sb).str_tests.length = q.str_tests.length + 1) ∧
    ((test_with_msg q tb ms).tests.length = q.tests.length + 1) ∧
    ((test q tb).tests.length = q.tests.length + 1) ∧
    ((message q m1).str_tests = q.str_tests ∧ (message q m1).tests = q.tests) ∧
    ((help q h1).str_tests = q.str_tests ∧ (help q h1).tests = q.tests) ∧
    ((default_value q v1).str_tests = q.str_tests ∧
      (default_value q v1).tests = q.tests) ∧
    ((timeout q d1).str_tests = q.str_tests ∧ (timeout q d1).tests = q.tests) ∧
    ((required_with_msg q r1).str_tests = q.str_tests ∧
      (required_with_msg q r1).tests = q.tests) := by
  refine ⟨rfl, rfl, rfl, rfl, rfl, rfl, rfl, ?_, ?_, ?_, ?_,
    ⟨rfl, rfl⟩, ⟨rfl, rfl⟩, ⟨rfl, rfl⟩, ⟨rfl, rfl⟩, ⟨rfl, rfl⟩⟩ <;>
    simp [str_test_with_msg, str_test, str_test_with_feedback,
      test_with_msg, test, test_with_feedback]

end Asking
